import Mathlib

/-!
Shallow embedding of the VBET per-level-path valley-bottom pipeline from
src/packages/vbet/vbet/vbet.py.

Rasters are modelled as total functions on integer (row, column) positions,
together with explicit height/width bounds; a raster value outside the bounds
is the zero of its type, matching numpy's array bounds and the border_value=0
convention of the scipy morphology calls in the source.  Evidence and HAND
rasters carry rational values; the rasterized channel and the thresholded
masks carry integer values.

The numpy / scipy / GDAL library calls made by the source are embedded by
executable Lean functions that follow the library's documented semantics:
scipy.ndimage.label with an 8-connected structuring element assigns labels
1,2,... to connected components in row-major first-encounter order;
gdal.SieveFilter with threshold 10 and connectedness 8 replaces every
maximal constant-value 8-connected region of fewer than 10 pixels with the
value of its (larger) neighbour region, which for a 0/1 raster is the
complementary value; scipy.ndimage.binary_closing with iterations=2 and the
default cross structuring element is two binary dilations followed by two
binary erosions, both with border_value 0 and clipped to the array bounds;
np.unique returns the sorted distinct values; ndarray.nonzero returns the
positions (indices) of the nonzero entries; np.isin tests membership of each
element in the flattened test array; np.choose indexes a list of choice
arrays and faults on an out-of-range index (modelled with List.get?).
-/

namespace VBET

/-- Raster cell position: (row, column), matching numpy indexing. -/
abbrev Pos : Type := ℤ × ℤ

/-- Bounds test for an H-row, W-column raster. -/
def inBoundsB (H W : ℕ) (p : Pos) : Bool :=
  decide (0 ≤ p.1) && decide (p.1 < (H : ℤ)) && decide (0 ≤ p.2) && decide (p.2 < (W : ℤ))

/-- Row-major list of the cells of an H×W raster (numpy scan order). -/
def boxList (H W : ℕ) : List Pos :=
  (List.range H).flatMap
    (fun i : ℕ => (List.range W).map (fun j : ℕ => ((i : ℤ), (j : ℤ))))

/-- The eight neighbours of a cell (scipy generate_binary_structure(2,2)). -/
def neighbors8 (p : Pos) : List Pos :=
  [(p.1 - 1, p.2 - 1), (p.1 - 1, p.2), (p.1 - 1, p.2 + 1),
   (p.1, p.2 - 1), (p.1, p.2 + 1),
   (p.1 + 1, p.2 - 1), (p.1 + 1, p.2), (p.1 + 1, p.2 + 1)]

/-- The four edge neighbours of a cell (scipy generate_binary_structure(2,1),
the default cross structuring element of binary_closing). -/
def neighbors4 (p : Pos) : List Pos :=
  [(p.1 - 1, p.2), (p.1 + 1, p.2), (p.1, p.2 - 1), (p.1, p.2 + 1)]

/-- Materialize a raster into a row-major list of rows. -/
def matG {α : Type} (f : Pos → α) (H W : ℕ) : List (List α) :=
  (List.range H).map
    (fun i : ℕ => (List.range W).map (fun j : ℕ => f ((i : ℤ), (j : ℤ))))

/-- Read a materialized raster; cells outside the stored area get the
default value. -/
def atG {α : Type} (dflt : α) (m : List (List α)) (p : Pos) : α :=
  if 0 ≤ p.1 ∧ 0 ≤ p.2 then (m.getD p.1.toNat []).getD p.2.toNat dflt else dflt

/-- Materialize an integer-valued raster into a row-major list of rows. -/
def materializeZ (f : Pos → ℤ) (H W : ℕ) : List (List ℤ) :=
  matG f H W

/-- Materialize a boolean raster into a row-major list of rows. -/
def materializeB (f : Pos → Bool) (H W : ℕ) : List (List Bool) :=
  matG f H W

/-- Read a materialized integer raster; cells outside the stored area are 0. -/
def atZ (m : List (List ℤ)) (p : Pos) : ℤ :=
  atG 0 m p

/-- Read a materialized boolean raster; cells outside the stored area are false. -/
def atB (m : List (List Bool)) (p : Pos) : Bool :=
  atG false m p

/-- Fuel-bounded flood fill: repeatedly pops a frontier cell, records it as
visited, and pushes its 8-neighbours that satisfy the admission test.  With
enough fuel this computes the set of cells reachable from the initial
frontier through admitted cells. -/
def flood (ok : Pos → Bool) : ℕ → List Pos → List Pos → List Pos
  | 0, _, visited => visited
  | _ + 1, [], visited => visited
  | fuel + 1, q :: rest, visited =>
    if visited.contains q then flood ok fuel rest visited
    else flood ok fuel ((neighbors8 q).filter ok ++ rest) (q :: visited)

/-- The 8-connected component of a cell, gathered by flood fill with fuel
sufficient for an H×W raster. -/
def componentOf (ok : Pos → Bool) (H W : ℕ) (p : Pos) : List Pos :=
  flood ok (9 * (H * W) + 9) [p] []

/-- Connected-component labelling of a boolean mask, after
scipy.ndimage.label with an 8-connected structure: scanning cells in
row-major order, each not-yet-labelled mask cell starts a new component that
receives the next label, beginning at 1.  Returns the cell-to-label
association list and the next unused label. -/
def labelGrid (mask : Pos → Bool) (H W : ℕ) : List (Pos × ℕ) × ℕ :=
  (boxList H W).foldl
    (fun st p =>
      if mask p && (st.1.lookup p).isNone then
        (st.1 ++ (componentOf (fun q => inBoundsB H W q && mask q) H W p).map
            (fun q => (q, st.2)),
         st.2 + 1)
      else st)
    ([], 1)

/-- Label of a cell in a labelling; background cells get 0 (scipy convention). -/
def labelAtN (assoc : List (Pos × ℕ)) (p : Pos) : ℕ :=
  (assoc.lookup p).getD 0

/-- Label of a cell as a raster integer. -/
def labelAtZ (assoc : List (Pos × ℕ)) (p : Pos) : ℤ :=
  (labelAtN assoc p : ℤ)

/-- Probe for the component structure of a mask: whether each of two cells
is set, and whether the second lies in the 8-connected component of the
first (gathered by an exhaustive flood fill); (true, true, false) exhibits
two distinct components. -/
def twoComponentProbe (m : List (List Bool)) (H W : ℕ) (p q : Pos) :
    Bool × Bool × Bool :=
  (atB m p, atB m q,
   (componentOf (fun r => inBoundsB H W r && atB m r) H W p).contains q)

/-- Fuel-bounded flood fill that counts the visited cells and stops as soon
as cap cells have been found; used to compare a region's pixel count against
a fixed threshold without exploring the whole region. -/
def floodCount (ok : Pos → Bool) (cap : ℕ) : ℕ → List Pos → List Pos → ℕ
  | 0, _, visited => visited.length
  | _ + 1, [], visited => visited.length
  | fuel + 1, q :: rest, visited =>
    if cap ≤ visited.length then visited.length
    else if visited.contains q then floodCount ok cap fuel rest visited
    else floodCount ok cap fuel ((neighbors8 q).filter ok ++ rest) (q :: visited)

/-- Pixel count of the maximal constant-value 8-connected region (the
"raster polygon" gdal.SieveFilter operates on) containing a cell, counted up
to the cap: the result is below the cap exactly when the region has fewer
than cap pixels, which is all the sieve's size comparison needs. -/
def regionSizeAt (g : Pos → ℤ) (cap H W : ℕ) (p : Pos) : ℕ :=
  floodCount (fun q => inBoundsB H W q && (g q == g p)) cap (9 * (H * W) + 9) [p] []

/-- Embedding of gdal.SieveFilter on a 0/1 raster (vbet.py:428, threshold 10,
connectedness 8): a constant-value region smaller than the threshold is
replaced by the value of its neighbour region, i.e. the complementary binary
value; regions of at least the threshold size are unchanged.  (GDAL leaves a
small region alone in the degenerate case where it has no neighbour at all,
i.e. a whole-raster constant; no claim exercises that case.) -/
def sieveGrid (g : Pos → ℤ) (thr : ℕ) (H W : ℕ) : List (List ℤ) :=
  materializeZ
    (fun p => if regionSizeAt g thr H W p < thr then 1 - g p else g p) H W

/-- Sorted distinct values of a list of raster values (np.unique). -/
def uniqueSorted (l : List ℤ) : List ℤ :=
  l.dedup.insertionSort (· ≤ ·)

/-- Positions of the nonzero entries of a list, ascending (ndarray.nonzero). -/
def nzIdx : List ℤ → ℕ → List ℕ
  | [], _ => []
  | x :: xs, i => if x ≠ 0 then i :: nzIdx xs (i + 1) else nzIdx xs (i + 1)

/-- Indices of the nonzero entries of a value list (values.nonzero()). -/
def nonzeroIndices (l : List ℤ) : List ℕ :=
  nzIdx l 0

/-- Binary dilation by the cross structuring element, border_value 0, output
clipped to the raster bounds (one iteration of scipy binary_dilation). -/
def dilateG (m : List (List Bool)) (H W : ℕ) : List (List Bool) :=
  materializeB
    (fun p => (p :: neighbors4 p).any (fun q => inBoundsB H W q && atB m q)) H W

/-- Binary erosion by the cross structuring element, border_value 0 (one
iteration of scipy binary_erosion): a cell survives when itself and all four
edge neighbours are in bounds and set. -/
def erodeG (m : List (List Bool)) (H W : ℕ) : List (List Bool) :=
  materializeB
    (fun p => (p :: neighbors4 p).all (fun q => inBoundsB H W q && atB m q)) H W

/-- scipy.ndimage.binary_closing with iterations=2 and the default cross
structure (vbet.py:443): two dilations followed by two erosions. -/
def closing2 (m : List (List Bool)) (H W : ℕ) : List (List Bool) :=
  erodeG (erodeG (dilateG (dilateG m H W) H W) H W) H W

/-- Raw valley-bottom mask (vbet.py:420):
valley_bottom = ((vbet + chan) >= threshold) * ((hand + chan) > 0),
a product of two boolean rasters cast to integers. -/
def rawMask (e : Pos → ℚ) (c : Pos → ℤ) (hnd : Pos → ℚ) (t : ℚ) : Pos → ℤ :=
  fun p =>
    (if t ≤ e p + (c p : ℚ) then 1 else 0) * (if 0 < hnd p + (c p : ℚ) then 1 else 0)

/-- The raw mask written to valley_bottom_raw.tif (vbet.py:420-422). -/
def rawStage (e : Pos → ℚ) (c : Pos → ℤ) (hnd : Pos → ℚ) (t : ℚ) (H W : ℕ) :
    List (List ℤ) :=
  materializeZ (rawMask e c hnd t) H W

/-- Sieve applied to a materialized raw mask (vbet.py:428-431). -/
def sievedOf (raw : List (List ℤ)) (H W : ℕ) : List (List ℤ) :=
  sieveGrid (atZ raw) 10 H W

/-- Component labelling of a materialized sieved mask (vbet.py:434-435):
regions, num = label(valley_bottom_sieved, structure=generate_binary_structure(2,2)). -/
def labelsOf (sieved : List (List ℤ)) (H W : ℕ) : List (Pos × ℕ) :=
  (labelGrid (fun p => atZ sieved p != 0) H W).1

/-- selection = regions * chan (vbet.py:436), flattened in row-major order. -/
def selectionOf (labels : List (Pos × ℕ)) (c : Pos → ℤ) (H W : ℕ) : List ℤ :=
  (boxList H W).map (fun p => labelAtZ labels p * c p)

/-- valley_bottom_region = np.isin(regions, values.nonzero()) (vbet.py:438):
keeps a cell when its region label occurs in the index list. -/
def regionOf (labels : List (Pos × ℕ)) (keep : List ℕ) (H W : ℕ) :
    List (List Bool) :=
  materializeB
    (fun p => (keep.map (fun n => (n : ℤ))).contains (labelAtZ labels p)) H W

/-- The sieved mask of the pipeline (vbet.py:428-431): gdal.SieveFilter with
threshold 10 and connectedness 8 applied to the raw mask. -/
def sievedStage (e : Pos → ℚ) (c : Pos → ℤ) (hnd : Pos → ℚ) (t : ℚ) (H W : ℕ) :
    List (List ℤ) :=
  sievedOf (rawStage e c hnd t H W) H W

/-- The component labelling of the pipeline's sieved mask (vbet.py:434-435). -/
def labelsStage (e : Pos → ℚ) (c : Pos → ℤ) (hnd : Pos → ℚ) (t : ℚ) (H W : ℕ) :
    List (Pos × ℕ) :=
  labelsOf (sievedStage e c hnd t H W) H W

/-- The pipeline's selection array, selection = regions * chan (vbet.py:436). -/
def selectionStage (e : Pos → ℚ) (c : Pos → ℤ) (hnd : Pos → ℚ) (t : ℚ) (H W : ℕ) :
    List ℤ :=
  selectionOf (labelsStage e c hnd t H W) c H W

/-- values = np.unique(selection) (vbet.py:437). -/
def valuesStage (e : Pos → ℚ) (c : Pos → ℤ) (hnd : Pos → ℚ) (t : ℚ) (H W : ℕ) :
    List ℤ :=
  uniqueSorted (selectionStage e c hnd t H W)

/-- values.nonzero() (vbet.py:438): the index positions of the nonzero
entries of the sorted distinct value array, not the values themselves. -/
def keepIdxStage (e : Pos → ℚ) (c : Pos → ℤ) (hnd : Pos → ℚ) (t : ℚ) (H W : ℕ) :
    List ℕ :=
  nonzeroIndices (valuesStage e c hnd t H W)

/-- The pipeline's selected-region mask (vbet.py:438). -/
def regionStage (e : Pos → ℚ) (c : Pos → ℤ) (hnd : Pos → ℚ) (t : ℚ) (H W : ℕ) :
    List (List Bool) :=
  regionOf (labelsStage e c hnd t H W) (keepIdxStage e c hnd t H W) H W

/-- generate_vbet_polygon (vbet.py:412-444): threshold the evidence, sieve,
label, select by channel overlap, and close; returns the final 0/1 mask
written to out_valley_bottom. -/
def generate_vbet_polygon (e : Pos → ℚ) (c : Pos → ℤ) (hnd : Pos → ℚ) (H W : ℕ)
    (t : ℚ) : List (List Bool) :=
  let raw := rawStage e c hnd t H W
  let sieved := sievedOf raw H W
  let labels := labelsOf sieved H W
  let keep := nonzeroIndices (uniqueSorted (selectionOf labels c H W))
  closing2 (regionOf labels keep H W) H W

/-- VBET_IA threshold from thresh_vals (vbet.py:91). -/
def thresh_VBET_IA : ℚ := 9 / 10

/-- VBET_FULL threshold from thresh_vals (vbet.py:91). -/
def thresh_VBET_FULL : ℚ := 68 / 100

/-- fvals_topo = np.ma.mean([Slope, HAND, TWI], axis=0) (vbet.py:270), at a
pixel where all three normalized layers are unmasked. -/
def fvals_topo (slope hand twi : Pos → ℚ) : Pos → ℚ :=
  fun p => (slope p + hand p + twi p) / 3

/-- fvals_channel = 0.995 * Channel (vbet.py:271). -/
def fvals_channel (c : Pos → ℤ) : Pos → ℚ :=
  fun p => (995 / 1000 : ℚ) * (c p : ℚ)

/-- fvals_evidence = np.maximum(fvals_topo, fvals_channel) (vbet.py:272). -/
def fvals_evidence (slope hand twi : Pos → ℚ) (c : Pos → ℤ) : Pos → ℚ :=
  fun p => max (fvals_topo slope hand twi p) (fvals_channel c p)

/-- One choose step of the composite merge (vbet.py:339):
array_out = np.choose(array_vbet_mask, [array_dest, array_source]); np.choose
picks the list entry indexed by the mask value and faults when the index is
out of range, modelled by List.get?. -/
def paint_window (m : Pos → ℕ) (dest src : Pos → ℚ) (p : Pos) : Option ℚ :=
  [dest p, src p].get? (m p)

/-- The per-window composite update for an existing composite raster
(vbet.py:333-341), as a total raster map; the out-of-range mask case, on
which numpy would fault, is mapped to the prior composite value and is
excluded by the mask hypotheses of every theorem below. -/
def vbet_composite_step (comp : Pos → ℚ) (m : Pos → ℕ) (src : Pos → ℚ) : Pos → ℚ :=
  fun p => (paint_window m comp src p).getD (comp p)

/-- The composite raster after folding a sequence of level-path
contributions (mask, local raster) in order over an initial composite
(vbet.py:323-345 executed once per level path in loop order). -/
def vbet_composite (init : Pos → ℚ) (steps : List ((Pos → ℕ) × (Pos → ℚ))) :
    Pos → ℚ :=
  steps.foldl (fun acc st => vbet_composite_step acc st.1 st.2) init

/-- Python's lexicographic (code-point) strict comparison of character
lists: the comparison list.sort applies to str values. -/
def pyCharListLt : List Char → List Char → Bool
  | [], [] => false
  | [], _ :: _ => true
  | _ :: _, [] => false
  | a :: as, b :: bs =>
    if a < b then true else if b < a then false else pyCharListLt as bs

/-- Python's string less-or-equal, as used by an ascending list.sort. -/
def pyStrLe (a b : String) : Bool :=
  ! pyCharListLt b.data a.data

/-- The deduplicated, optionally filtered level-path strings of
vbet.py:201-208: every flowline's LevelPathI value as the string
str(int(value)), deduplicated (set) and filtered to the user list when one
is given. -/
def level_path_strings (ids : List ℕ) (filterOpt : Option (List String)) :
    List String :=
  let l0 := (ids.map (fun n => toString n)).dedup
  match filterOpt with
  | some fl => l0.filter (fun s => fl.contains s)
  | none => l0

/-- level_paths_to_run (vbet.py:200-210): the level-path strings sorted
ascending by Python string comparison (list.sort(reverse=False) on str
values compares code-point-lexicographically), with the orphan marker None
appended last. -/
def level_paths_to_run (ids : List ℕ) (filterOpt : Option (List String)) :
    List (Option String) :=
  ((level_path_strings ids filterOpt).insertionSort
      (fun a b => pyStrLe a b = true)).map some ++ [none]

/-- The numeric value named by a decimal level-path string. -/
def numOfStr (s : String) : ℕ :=
  s.data.foldl (fun n c => 10 * n + (c.toNat - 48)) 0

/-- The iteration order property claimed by the spec: the level paths are
visited in ascending numeric order of their ids (the orphan marker carries
no id and is ignored). -/
def visitsNumericAscending (l : List (Option String)) : Prop :=
  List.Sorted (· ≤ ·) ((l.filterMap id).map numOfStr)

/-- A piece of an OGR geometry collection, by geometry name. -/
inductive OgrGeomPiece : Type
  | lineString (id : ℕ)
  | pointG (id : ℕ)
  | polygonG (id : ℕ)
deriving DecidableEq

/-- GetGeometryName() == 'LineString' test. -/
def isLineString : OgrGeomPiece → Bool
  | .lineString _ => true
  | _ => false

/-- Translation of the GeometryCollection branch (vbet.py:304-308):
for line in centerline_intersected:
    centerline = ogr.Geometry(ogr.wkbMultiLineString)
    if line.GetGeometryName() == 'LineString':
        centerline.AddGeometry(line)
The multilinestring accumulator is created anew on every loop iteration, so
after the loop the variable holds only what the final iteration put in it;
when the collection is empty the variable is never bound (None here). -/
def collect_centerline (pieces : List OgrGeomPiece) : Option (List OgrGeomPiece) :=
  pieces.foldl
    (fun _prev piece => some (if isLineString piece then [piece] else [])) none

/-- The output state touched by one iteration of the level-path loop:
the three append-only vector layers and the two composite rasters (None
until the first writer initializes the file). -/
structure VbetOutputs : Type where
  centerlines : List (String × ℕ)
  vbet_full : List (Option String × ℕ)
  vbet_ia : List (Option String × ℕ)
  comp_hand : Option (Pos → ℚ)
  comp_evidence : Option (Pos → ℚ)

/-- The per-level-path products consumed by one loop iteration. -/
structure LevelPathResult : Type where
  full_poly : ℕ
  ia_poly : ℕ
  centerline : ℕ
  vb_mask : Pos → ℕ
  hand_local : Pos → ℚ
  evidence_local : Pos → ℚ

/-- Composite paint for one raster (vbet.py:323-358): when the composite file
exists, choose source under the valley-bottom mask and keep the destination
elsewhere; when it does not exist, the first writer initializes the
composite with a copy of the local raster. -/
def paint_composite (cur : Option (Pos → ℚ)) (m : Pos → ℕ) (src : Pos → ℚ) :
    Pos → ℚ :=
  match cur with
  | some comp => vbet_composite_step comp m src
  | none => src

/-- One iteration of the level-path loop (vbet.py:215-358) restricted to the
shared outputs: both valley-bottom polygons are appended unconditionally
(vbet.py:277-290), the centerline feature is generated and appended only
under the guard level_path is not None (vbet.py:292-319), and both
composite rasters are painted unconditionally (vbet.py:321-358). -/
def vbet_iteration (lp : Option String) (d : LevelPathResult) (st : VbetOutputs) :
    VbetOutputs :=
  let st1 := { st with
    vbet_full := st.vbet_full ++ [(lp, d.full_poly)],
    vbet_ia := st.vbet_ia ++ [(lp, d.ia_poly)] }
  let st2 := match lp with
    | some l => { st1 with centerlines := st1.centerlines ++ [(l, d.centerline)] }
    | none => st1
  { st2 with
    comp_hand := some (paint_composite st2.comp_hand d.vb_mask d.hand_local),
    comp_evidence := some (paint_composite st2.comp_evidence d.vb_mask d.evidence_local) }

/-- Modelled from the spec: rscommons.vector_ops.get_endpoints is part of
this repository but not under src.  Per spec 4.4, it determines the two
endpoint coordinates of a level path from the flowline network when they
exist; a level path with no identifiable up/downstream ends yields none. -/
def get_endpoints_model (net : List (String × (Pos × Pos))) (lp : String) :
    Option (Pos × Pos) :=
  net.lookup lp

/-- Modelled from the spec: the least-cost-path / raster2line chain
(scripts.cost_path.least_cost_path, scripts.raster2line.raster2line_geom) is
part of this repository but not under src.  Per spec 4.4 (Failure) and 7,
when the endpoints are absent the centerline for the level path is the
empty geometry, recorded, not fatal; otherwise it is a path between the two
endpoints. -/
def centerline_of_model (net : List (String × (Pos × Pos))) (lp : String) :
    List Pos :=
  match get_endpoints_model net lp with
  | some (a, b) => [a, b]
  | none => []

/-- One level-path iteration of the centerline stage: the local HAND
generation raises on a TauDEM failure (vbet.py:238-240, fatal for the run),
and otherwise the centerline record for the level path is produced (empty
when the endpoints are absent); the orphan group generates no centerline. -/
def process_level_path (net : List (String × (Pos × Pos))) (lp : Option String)
    (handOK : Bool) : Except String (Option String × Option (List Pos)) :=
  if handOK then .ok (lp, lp.map (centerline_of_model net))
  else .error "TauDEM: dinfdistdown failed"

/-- The centerline records the loop produces when every iteration succeeds. -/
def centerline_records (net : List (String × (Pos × Pos)))
    (inputs : List (Option String × Bool)) : List (Option String × Option (List Pos)) :=
  inputs.map (fun i => (i.1, i.1.map (centerline_of_model net)))

/-- The level-path loop over the centerline stage: iterations run in order;
a TauDEM failure aborts the run, any other outcome is recorded and the loop
continues with the next level path. -/
def process_level_paths (net : List (String × (Pos × Pos)))
    (inputs : List (Option String × Bool)) :
    Except String (List (Option String × Option (List Pos))) :=
  match inputs with
  | [] => .ok []
  | (lp, okFlag) :: rest =>
    match process_level_path net lp okFlag with
    | .error e => .error e
    | .ok r =>
      match process_level_paths net rest with
      | .error e => .error e
      | .ok rs => .ok (r :: rs)

/-! Concrete rasters used by the counterexamples and witnesses below.
Each triple is an evidence raster, a rasterized channel and a local HAND
raster; the HAND value is 1 everywhere so that (hand + chan) > 0 holds on
the whole grid. -/

/-- Evidence for a 1×30 run: two 10-pixel bars (columns 0-9 and 20-29). -/
def e1 : Pos → ℚ := fun p =>
  if p.1 = 0 ∧ ((0 ≤ p.2 ∧ p.2 ≤ 9) ∨ (20 ≤ p.2 ∧ p.2 ≤ 29)) then 95 / 100 else 0

/-- Channel for the 1×30 run: a single channel cell inside the second bar. -/
def c1 : Pos → ℤ := fun p => if p = (0, 25) then 1 else 0

/-- HAND for the 1×30 run. -/
def h1 : Pos → ℚ := fun _ => 1

/-- Evidence for a 5×15 run: two 2×5 bars (rows 2-3, columns 0-4 and 10-14). -/
def e4 : Pos → ℚ := fun p =>
  if (2 ≤ p.1 ∧ p.1 ≤ 3) ∧ ((0 ≤ p.2 ∧ p.2 ≤ 4) ∨ (10 ≤ p.2 ∧ p.2 ≤ 14)) then 95 / 100
  else 0

/-- Channel for the 5×15 run: one channel cell inside each bar. -/
def c4 : Pos → ℤ := fun p => if p = (2, 2) ∨ p = (2, 12) then 1 else 0

/-- HAND for the 5×15 run. -/
def h4 : Pos → ℚ := fun _ => 1

/-- Evidence for a 7×13 run: three 10-pixel blocks with evidence 0.95
(rows 0-1 × columns 2-6; rows 3-4 × columns 0-4; rows 3-4 × columns 8-12)
and a bridge of evidence 0.7 (row 3, columns 5-7) joining the second and
third blocks only at the lower threshold. -/
def e5 : Pos → ℚ := fun p =>
  if (0 ≤ p.1 ∧ p.1 ≤ 1) ∧ (2 ≤ p.2 ∧ p.2 ≤ 6) then 95 / 100
  else if (3 ≤ p.1 ∧ p.1 ≤ 4) ∧ (0 ≤ p.2 ∧ p.2 ≤ 4) then 95 / 100
  else if (3 ≤ p.1 ∧ p.1 ≤ 4) ∧ (8 ≤ p.2 ∧ p.2 ≤ 12) then 95 / 100
  else if p.1 = 3 ∧ (5 ≤ p.2 ∧ p.2 ≤ 7) then 7 / 10
  else 0

/-- Channel for the 7×13 run: one channel cell inside each of the second
and third blocks; the first block has no channel. -/
def c5 : Pos → ℤ := fun p => if p = (4, 2) ∨ p = (3, 9) then 1 else 0

/-- HAND for the 7×13 run. -/
def h5 : Pos → ℚ := fun _ => 1

/-- All-zero evidence on a 1×12 grid. -/
def eZ : Pos → ℚ := fun _ => 0

/-- All-zero channel on a 1×12 grid. -/
def cZ : Pos → ℤ := fun _ => 0

/-- HAND for the all-zero run. -/
def hZ : Pos → ℚ := fun _ => 1

/-- Evidence for a 1×12 run with a single above-threshold pixel at (0,0),
whose raw-mask region has one pixel and is removed by the sieve. -/
def eS : Pos → ℚ := fun p => if p = (0, 0) then 95 / 100 else 0

/-- Channel for the single-pixel run (empty). -/
def cS : Pos → ℤ := fun _ => 0

/-- HAND for the single-pixel run. -/
def hS : Pos → ℚ := fun _ => 1

/-- Constant normalized slope layer for the fuser witness. -/
def slope6 : Pos → ℚ := fun _ => 1 / 2

/-- Constant normalized HAND layer for the fuser witness. -/
def hand6 : Pos → ℚ := fun _ => 1 / 2

/-- Constant normalized TWI layer for the fuser witness. -/
def twi6 : Pos → ℚ := fun _ => 1 / 2

/-- Channel mask for the fuser witness: channel everywhere. -/
def chan6 : Pos → ℤ := fun _ => 1

/-- Valley-bottom mask for the composite witness: set on column 0 only. -/
def mask2 : Pos → ℕ := fun p => if p.2 = 0 then 1 else 0

/-- Prior composite values for the composite witness. -/
def comp2 : Pos → ℚ := fun _ => 5

/-- Local raster values for the composite witness. -/
def src2 : Pos → ℚ := fun _ => 7

/-! Supporting lemmas about the raster infrastructure. -/

theorem getD_map_range {α : Type} (f : ℕ → α) (d : α) (n i : ℕ) :
    ((List.range n).map f).getD i d = if i < n then f i else d := by
  rw [List.getD_eq_getElem?_getD, List.getElem?_map]
  by_cases h : i < n
  · rw [List.getElem?_range h]
    simp [h]
  · rw [List.getElem?_eq_none (by simpa using Nat.le_of_not_lt h)]
    simp [h]

theorem atG_matG {α : Type} (dflt : α) (f : Pos → α) (H W : ℕ) (p : Pos) :
    atG dflt (matG f H W) p = if inBoundsB H W p = true then f p else dflt := by
  obtain ⟨x, y⟩ := p
  simp only [atG, matG]
  by_cases h1 : 0 ≤ x
  · by_cases h2 : 0 ≤ y
    · rw [if_pos ⟨h1, h2⟩, getD_map_range]
      by_cases hx : x < (H : ℤ)
      · rw [if_pos (by omega : x.toNat < H), getD_map_range]
        by_cases hy : y < (W : ℤ)
        · rw [if_pos (by omega : y.toNat < W)]
          have ex : ((x.toNat : ℤ), (y.toNat : ℤ)) = ((x, y) : Pos) := by
            simp [Int.toNat_of_nonneg h1, Int.toNat_of_nonneg h2]
          rw [ex]
          simp [inBoundsB, h1, h2, hx, hy]
        · rw [if_neg (by omega : ¬ y.toNat < W)]
          simp [inBoundsB, hy]
      · rw [if_neg (by omega : ¬ x.toNat < H)]
        simp [inBoundsB, hx]
    · rw [if_neg (by tauto)]
      simp [inBoundsB, h2]
  · rw [if_neg (by tauto)]
    simp [inBoundsB, h1]

theorem atZ_materializeZ (f : Pos → ℤ) (H W : ℕ) (p : Pos) :
    atZ (materializeZ f H W) p = if inBoundsB H W p = true then f p else 0 :=
  atG_matG 0 f H W p

theorem atB_materializeB (f : Pos → Bool) (H W : ℕ) (p : Pos) :
    atB (materializeB f H W) p = if inBoundsB H W p = true then f p else false :=
  atG_matG false f H W p

theorem inBounds_of_mem_boxList (H W : ℕ) (p : Pos) (hp : p ∈ boxList H W) :
    inBoundsB H W p = true := by
  simp only [boxList, List.mem_flatMap, List.mem_map, List.mem_range] at hp
  obtain ⟨i, hi, j, hj, rfl⟩ := hp
  simp only [inBoundsB, Bool.and_eq_true, decide_eq_true_eq]
  refine ⟨⟨⟨?_, ?_⟩, ?_⟩, ?_⟩ <;> omega

theorem flood_forall_ok (ok : Pos → Bool) :
    ∀ (fuel : ℕ) (frontier visited : List Pos),
      (∀ q ∈ frontier, ok q = true) → (∀ q ∈ visited, ok q = true) →
      ∀ q ∈ flood ok fuel frontier visited, ok q = true := by
  intro fuel
  induction fuel with
  | zero =>
    intro frontier visited _ hv q hq
    simp only [flood] at hq
    exact hv q hq
  | succ n ih =>
    intro frontier visited hf hv q hq
    cases frontier with
    | nil =>
      simp only [flood] at hq
      exact hv q hq
    | cons a rest =>
      simp only [flood] at hq
      by_cases hc : visited.contains a
      · rw [if_pos hc] at hq
        exact ih rest visited (fun r hr => hf r (List.mem_cons_of_mem a hr)) hv q hq
      · rw [if_neg hc] at hq
        refine ih _ _ ?_ ?_ q hq
        · intro r hr
          rcases List.mem_append.1 hr with h | h
          · exact (List.mem_filter.1 h).2
          · exact hf r (List.mem_cons_of_mem a h)
        · intro r hr
          rcases List.mem_cons.1 hr with h | h
          · rw [h]
            exact hf a (List.mem_cons_self a rest)
          · exact hv r h

theorem labelGrid_entry_mask (mask : Pos → Bool) (H W : ℕ) :
    ∀ e ∈ (labelGrid mask H W).1, mask e.1 = true := by
  have key : ∀ (l : List Pos), (∀ p ∈ l, inBoundsB H W p = true) →
      ∀ (st : List (Pos × ℕ) × ℕ), (∀ e ∈ st.1, mask e.1 = true) →
      ∀ e ∈ (l.foldl
          (fun st p =>
            if mask p && (st.1.lookup p).isNone then
              (st.1 ++ (componentOf (fun q => inBoundsB H W q && mask q) H W p).map
                  (fun q => (q, st.2)),
               st.2 + 1)
            else st)
          st).1, mask e.1 = true := by
    intro l
    induction l with
    | nil =>
      intro _ st hst e he
      exact hst e he
    | cons p rest ih =>
      intro hl st hst e he
      rw [List.foldl_cons] at he
      refine ih (fun q hq => hl q (List.mem_cons_of_mem p hq)) _ ?_ e he
      by_cases hg : mask p && (st.1.lookup p).isNone
      · rw [if_pos hg]
        intro a ha
        rcases List.mem_append.1 ha with h | h
        · exact hst a h
        · obtain ⟨q, hq, rfl⟩ := List.mem_map.1 h
          have hq2 := flood_forall_ok (fun r => inBoundsB H W r && mask r) _ [p] []
            (by
              intro r hr
              rcases List.mem_cons.1 hr with h | h
              · rw [h]
                simp only [Bool.and_eq_true] at hg ⊢
                exact ⟨hl p (List.mem_cons_self p rest), hg.1⟩
              · simp at h)
            (by intro r hr; simp at hr) q hq
          simp only [Bool.and_eq_true] at hq2
          exact hq2.2
      · rw [if_neg hg]
        exact hst
  exact key (boxList H W) (inBounds_of_mem_boxList H W) ([], 1) (by simp)

theorem lookup_mem {l : List (Pos × ℕ)} {p : Pos} {v : ℕ}
    (h : l.lookup p = some v) : (p, v) ∈ l := by
  induction l with
  | nil => simp [List.lookup] at h
  | cons a t ih =>
    rw [List.lookup] at h
    cases hpk : (p == a.1) with
    | true =>
      rw [hpk] at h
      have h1 : p = a.1 := eq_of_beq hpk
      have h2 : a.2 = v := by
        cases h
        rfl
      rw [h1, ← h2]
      simp [List.mem_cons]
    | false =>
      rw [hpk] at h
      exact List.mem_cons_of_mem a (ih h)

theorem labelsOf_ne_zero_mask (sieved : List (List ℤ)) (H W : ℕ) (p : Pos)
    (h : labelAtN (labelsOf sieved H W) p ≠ 0) : (atZ sieved p != 0) = true := by
  unfold labelAtN at h
  cases hx : (labelsOf sieved H W).lookup p with
  | none =>
    rw [hx] at h
    simp at h
  | some v =>
    have hm := lookup_mem hx
    exact labelGrid_entry_mask (fun q => atZ sieved q != 0) H W (p, v) hm

theorem mem_uniqueSorted {x : ℤ} {l : List ℤ} : x ∈ uniqueSorted l ↔ x ∈ l := by
  unfold uniqueSorted
  rw [(List.perm_insertionSort _ _).mem_iff, List.mem_dedup]

theorem nzIdx_eq_nil {l : List ℤ} (h : ∀ x ∈ l, x = 0) : ∀ i, nzIdx l i = [] := by
  induction l with
  | nil =>
    intro i
    rfl
  | cons a t ih =>
    intro i
    rw [nzIdx, if_neg (by simp [h a (List.mem_cons_self a t)])]
    exact ih (fun x hx => h x (List.mem_cons_of_mem a hx)) (i + 1)

theorem dilateG_allFalse {m : List (List Bool)} {H W : ℕ}
    (hm : ∀ p, atB m p = false) : ∀ p, atB (dilateG m H W) p = false := by
  intro p
  unfold dilateG
  rw [atB_materializeB]
  split
  · simp [hm]
  · rfl

theorem erodeG_allFalse {m : List (List Bool)} {H W : ℕ}
    (hm : ∀ p, atB m p = false) : ∀ p, atB (erodeG m H W) p = false := by
  intro p
  unfold erodeG
  rw [atB_materializeB]
  split
  · simp [hm]
  · rfl

/-! Claim theorems. -/

/-- C2: in the per-window composite merge for an existing composite raster,
every pixel where the level path's valley-bottom mask is 1 receives the
local raster value, every pixel where the mask is 0 retains the prior
composite value, and consequently a later level path's step never changes a
composite cell that its mask does not cover. -/
theorem C2_composite_paint (m : Pos → ℕ) (comp src : Pos → ℚ) (p : Pos) :
    (m p = 1 → vbet_composite_step comp m src p = src p)
  ∧ (m p = 0 → vbet_composite_step comp m src p = comp p)
  ∧ (∀ (init : Pos → ℚ) (steps : List ((Pos → ℕ) × (Pos → ℚ))) (i : ℕ)
      (st : (Pos → ℕ) × (Pos → ℚ)),
      steps[i]? = some st → st.1 p = 0 →
      vbet_composite init (steps.take (i + 1)) p =
        vbet_composite init (steps.take i) p) := by
  refine ⟨?_, ?_, ?_⟩
  · intro h
    unfold vbet_composite_step paint_window
    rw [h]
    rfl
  · intro h
    unfold vbet_composite_step paint_window
    rw [h]
    rfl
  · intro init steps i st hst hm0
    unfold vbet_composite
    rw [List.take_succ, hst, List.foldl_append]
    simp only [Option.toList_some, List.foldl_cons, List.foldl_nil]
    unfold vbet_composite_step paint_window
    rw [hm0]
    rfl

/-- C2 witness: a one-step composite sequence evaluated at a covered and an
uncovered pixel. -/
theorem C2_composite_paint_witness :
    vbet_composite_step comp2 mask2 src2 (0, 0) = src2 (0, 0)
  ∧ vbet_composite_step comp2 mask2 src2 (0, 1) = comp2 (0, 1)
  ∧ vbet_composite comp2 ([(mask2, src2)].take 1) (0, 1) =
      vbet_composite comp2 ([(mask2, src2)].take 0) (0, 1) :=
  ⟨(C2_composite_paint mask2 comp2 src2 (0, 0)).1 (by decide),
   (C2_composite_paint mask2 comp2 src2 (0, 1)).2.1 (by decide),
   (C2_composite_paint mask2 comp2 src2 (0, 1)).2.2 comp2 [(mask2, src2)] 0
     (mask2, src2) rfl (by decide)⟩

/-- C6: in the evidence fuser, at every pixel where the rasterized channel
is 1 the fused evidence equals the maximum of the topographic evidence and
the channel-confidence value 0.995, hence is at least 0.995 and so passes
both the 0.90 and 0.68 valley-bottom thresholds. -/
theorem C6_channel_confidence (slope hand twi : Pos → ℚ) (c : Pos → ℤ) (p : Pos)
    (hc : c p = 1) :
    fvals_evidence slope hand twi c p = max (fvals_topo slope hand twi p) (995 / 1000)
  ∧ (995 / 1000 : ℚ) ≤ fvals_evidence slope hand twi c p
  ∧ thresh_VBET_IA ≤ fvals_evidence slope hand twi c p
  ∧ thresh_VBET_FULL ≤ fvals_evidence slope hand twi c p := by
  have h2 : fvals_evidence slope hand twi c p =
      max (fvals_topo slope hand twi p) (995 / 1000) := by
    unfold fvals_evidence fvals_channel
    rw [hc]
    norm_num
  refine ⟨h2, ?_, ?_, ?_⟩
  · rw [h2]
    exact le_max_right _ _
  · rw [h2]
    exact le_trans (by norm_num [thresh_VBET_IA]) (le_max_right _ _)
  · rw [h2]
    exact le_trans (by norm_num [thresh_VBET_FULL]) (le_max_right _ _)

/-- C6 witness: the fuser evaluated on constant layers at a channel pixel. -/
theorem C6_channel_confidence_witness :
    fvals_evidence slope6 hand6 twi6 chan6 (0, 0) =
      max (fvals_topo slope6 hand6 twi6 (0, 0)) (995 / 1000)
  ∧ (995 / 1000 : ℚ) ≤ fvals_evidence slope6 hand6 twi6 chan6 (0, 0)
  ∧ thresh_VBET_IA ≤ fvals_evidence slope6 hand6 twi6 chan6 (0, 0)
  ∧ thresh_VBET_FULL ≤ fvals_evidence slope6 hand6 twi6 chan6 (0, 0) :=
  C6_channel_confidence slope6 hand6 twi6 chan6 (0, 0) rfl

/-- C8: evaluation of the GeometryCollection branch.  The accumulator is
reinitialized inside the loop, so a collection of two LineString pieces
yields only the last piece, and a collection whose last piece is a Point
yields an empty centerline even though a LineString piece was present; the
claim that all and only the LineString pieces are kept fails. -/
theorem C8_centerline_loop_reset :
    collect_centerline [OgrGeomPiece.lineString 0, OgrGeomPiece.lineString 1] =
      some [OgrGeomPiece.lineString 1]
  ∧ collect_centerline [OgrGeomPiece.lineString 0, OgrGeomPiece.pointG 1] = some []
  ∧ collect_centerline [OgrGeomPiece.lineString 0, OgrGeomPiece.lineString 1] ≠
      some [OgrGeomPiece.lineString 0, OgrGeomPiece.lineString 1] := by
  refine ⟨rfl, rfl, by decide⟩

/-- C9: a level path whose endpoints cannot be determined gets an empty
centerline record and the loop is not aborted: when the local HAND steps
succeed, the loop returns the full record list, one record per level path,
with the endpoint-less level path recorded as the empty geometry. -/
theorem C9_absent_endpoints_not_fatal (net : List (String × (Pos × Pos)))
    (inputs : List (Option String × Bool)) (l : String)
    (hall : ∀ i ∈ inputs, i.2 = true)
    (hmem : (some l, true) ∈ inputs)
    (hend : get_endpoints_model net l = none) :
    process_level_paths net inputs = .ok (centerline_records net inputs)
  ∧ (some l, some ([] : List Pos)) ∈ centerline_records net inputs
  ∧ (centerline_records net inputs).length = inputs.length := by
  refine ⟨?_, ?_, by simp [centerline_records]⟩
  · clear hmem
    induction inputs with
    | nil => rfl
    | cons a rest ih =>
      obtain ⟨lp, b⟩ := a
      have hb : b = true := hall (lp, b) (List.mem_cons_self _ _)
      subst hb
      have hrest := ih (fun i hi => hall i (List.mem_cons_of_mem _ hi))
      simp only [process_level_paths, process_level_path, if_pos, centerline_records,
        List.map_cons] at hrest ⊢
      rw [hrest]
  · have hmm : (some l, (some l).map (centerline_of_model net)) ∈
        centerline_records net inputs :=
      List.mem_map.2 ⟨(some l, true), hmem, rfl⟩
    have hcl : centerline_of_model net l = [] := by
      unfold centerline_of_model
      rw [hend]
    simpa [hcl] using hmm

/-- C9 witness: a network with no endpoints for level path "5". -/
theorem C9_absent_endpoints_witness :
    process_level_paths [] [(some "5", true), (none, true)] =
      .ok (centerline_records [] [(some "5", true), (none, true)])
  ∧ (some "5", some ([] : List Pos)) ∈
      centerline_records [] [(some "5", true), (none, true)] :=
  ⟨(C9_absent_endpoints_not_fatal [] [(some "5", true), (none, true)] "5"
      (by decide) (by decide) rfl).1,
   (C9_absent_endpoints_not_fatal [] [(some "5", true), (none, true)] "5"
      (by decide) (by decide) rfl).2.1⟩

/-- C10: the orphan (no-level-path) iteration appends no centerline feature
while still appending both valley-bottom polygons and painting both
composite rasters with exactly the same painting step a normal level path
uses; a normal level path additionally appends its centerline. -/
theorem C10_orphan_iteration (d : LevelPathResult) (st : VbetOutputs) :
    (vbet_iteration none d st).centerlines = st.centerlines
  ∧ (∀ l, (vbet_iteration (some l) d st).centerlines =
      st.centerlines ++ [(l, d.centerline)])
  ∧ (vbet_iteration none d st).vbet_full = st.vbet_full ++ [(none, d.full_poly)]
  ∧ (vbet_iteration none d st).vbet_ia = st.vbet_ia ++ [(none, d.ia_poly)]
  ∧ (vbet_iteration none d st).comp_hand =
      some (paint_composite st.comp_hand d.vb_mask d.hand_local)
  ∧ (vbet_iteration none d st).comp_evidence =
      some (paint_composite st.comp_evidence d.vb_mask d.evidence_local)
  ∧ (∀ l, (vbet_iteration (some l) d st).comp_hand =
        (vbet_iteration none d st).comp_hand
      ∧ (vbet_iteration (some l) d st).comp_evidence =
        (vbet_iteration none d st).comp_evidence) :=
  ⟨rfl, fun _ => rfl, rfl, rfl, rfl, rfl, fun _ => ⟨rfl, rfl⟩⟩

theorem pyCharListLt_asymm : ∀ (x y : List Char),
    pyCharListLt x y = true → pyCharListLt y x = false := by
  intro x
  induction x with
  | nil =>
    intro y h
    cases y with
    | nil => simp [pyCharListLt] at h
    | cons b bs => rfl
  | cons a as ih =>
    intro y h
    cases y with
    | nil => simp [pyCharListLt] at h
    | cons b bs =>
      rw [pyCharListLt] at h
      rw [pyCharListLt]
      by_cases hab : a < b
      · rw [if_neg (lt_asymm hab), if_pos hab]
      · rw [if_neg hab] at h
        by_cases hba : b < a
        · rw [if_pos hba] at h
          exact absurd h (by simp)
        · rw [if_neg hba] at h
          rw [if_neg hba, if_neg hab]
          exact ih bs h

theorem pyCharListLt_false_trans : ∀ (x y z : List Char),
    pyCharListLt y x = false → pyCharListLt z y = false →
    pyCharListLt z x = false := by
  intro x
  induction x with
  | nil =>
    intro y z _ _
    cases z with
    | nil => rfl
    | cons c cs => rfl
  | cons a as ih =>
    intro y z h1 h2
    cases y with
    | nil => simp [pyCharListLt] at h1
    | cons b bs =>
      cases z with
      | nil => simp [pyCharListLt] at h2
      | cons c cs =>
        rw [pyCharListLt] at h1 h2 ⊢
        by_cases hba : b < a
        · rw [if_pos hba] at h1
          exact absurd h1 (by simp)
        · rw [if_neg hba] at h1
          by_cases hcb : c < b
          · rw [if_pos hcb] at h2
            exact absurd h2 (by simp)
          · rw [if_neg hcb] at h2
            have hab : a ≤ b := not_lt.1 hba
            have hbc : b ≤ c := not_lt.1 hcb
            have hca : ¬ c < a := not_lt.2 (le_trans hab hbc)
            rw [if_neg hca]
            by_cases hac : a < c
            · rw [if_pos hac]
            · rw [if_neg hac]
              have hceq : a = c := le_antisymm (le_trans hab hbc) (not_lt.1 hac)
              have hbeq : b = a := le_antisymm (hceq ▸ hbc) hab
              rw [if_neg (show ¬ a < b by rw [hbeq]; exact lt_irrefl a)] at h1
              rw [if_neg (show ¬ b < c by rw [hbeq, ← hceq]; exact lt_irrefl a)] at h2
              exact ih bs cs h1 h2

theorem pyStrLe_total (a b : String) : pyStrLe a b = true ∨ pyStrLe b a = true := by
  by_cases h : pyCharListLt b.data a.data = true
  · right
    unfold pyStrLe
    rw [pyCharListLt_asymm _ _ h]
    rfl
  · left
    unfold pyStrLe
    have h0 : pyCharListLt b.data a.data = false := by
      revert h
      cases pyCharListLt b.data a.data <;> simp
    rw [h0]
    rfl

theorem pyStrLe_trans (a b c : String) (h1 : pyStrLe a b = true)
    (h2 : pyStrLe b c = true) : pyStrLe a c = true := by
  unfold pyStrLe at h1 h2 ⊢
  have h1f : pyCharListLt b.data a.data = false := by
    revert h1
    cases pyCharListLt b.data a.data <;> simp
  have h2f : pyCharListLt c.data b.data = false := by
    revert h2
    cases pyCharListLt c.data b.data <;> simp
  rw [pyCharListLt_false_trans a.data b.data c.data h1f h2f]
  rfl

/-- C3 counterexample: with level path ids 9 and 10 the loop visits "10"
before "9" because the sort is on decimal strings, so the visit order is not
ascending numeric order. -/
theorem C3_numeric_order_cex :
    level_paths_to_run [9, 10] none = [some "10", some "9", none]
  ∧ ¬ visitsNumericAscending (level_paths_to_run [9, 10] none) := by
  constructor
  · decide
  · intro h
    unfold visitsNumericAscending at h
    revert h
    decide

/-- C3 (amended): the level paths are computed once and deduplicated, the
visit order is ascending in the lexicographic string order of the decimal
ids (which coincides with numeric order only for ids of equal digit count),
and the orphan group is exactly the final iteration. -/
theorem C3_lexicographic_order (ids : List ℕ) (fl : Option (List String)) :
    List.Sorted (fun a b => pyStrLe a b = true)
      ((level_paths_to_run ids fl).filterMap id)
  ∧ (level_paths_to_run ids fl).getLast? = some none
  ∧ ∀ s : String, s ∈ (level_paths_to_run ids fl).filterMap id ↔
      s ∈ level_path_strings ids fl := by
  have hfm : (level_paths_to_run ids fl).filterMap id =
      (level_path_strings ids fl).insertionSort (fun a b => pyStrLe a b = true) := by
    unfold level_paths_to_run
    rw [List.filterMap_append]
    simp
  refine ⟨?_, ?_, ?_⟩
  · rw [hfm]
    exact @List.sorted_insertionSort String (fun a b => pyStrLe a b = true) _
      ⟨pyStrLe_total⟩ ⟨pyStrLe_trans⟩ _
  · unfold level_paths_to_run
    exact List.getLast?_concat _
  · intro s
    rw [hfm, (List.perm_insertionSort _ _).mem_iff]

/-- C4 (amended): when no cell of the sieved mask overlaps the channel, the
selection keeps nothing and the final valley-bottom mask is the all-zero
raster; the mask is not in general limited to a single connected component
(see the counterexample). -/
theorem C4_no_overlap_all_zero (e : Pos → ℚ) (c : Pos → ℤ) (hnd : Pos → ℚ)
    (t : ℚ) (H W : ℕ)
    (hno : ∀ p ∈ boxList H W, atZ (sievedStage e c hnd t H W) p * c p = 0) :
    ∀ p : Pos, atB (generate_vbet_polygon e c hnd H W t) p = false := by
  have hsel : ∀ v ∈ selectionStage e c hnd t H W, v = 0 := by
    intro v hv
    unfold selectionStage selectionOf at hv
    obtain ⟨p, hp, rfl⟩ := List.mem_map.1 hv
    by_cases hl : labelAtN (labelsStage e c hnd t H W) p = 0
    · simp [labelAtZ, hl]
    · unfold labelsStage at hl
      have hmask := labelsOf_ne_zero_mask (sievedStage e c hnd t H W) H W p hl
      have hz : atZ (sievedStage e c hnd t H W) p ≠ 0 := by simpa using hmask
      have hc : c p = 0 := by
        rcases mul_eq_zero.1 (hno p hp) with h | h
        · exact absurd h hz
        · exact h
      simp [labelAtZ, hc]
  have hkeep : keepIdxStage e c hnd t H W = [] := by
    unfold keepIdxStage nonzeroIndices valuesStage
    exact nzIdx_eq_nil (fun x hx => hsel x (mem_uniqueSorted.1 hx)) 0
  have hreg : ∀ p, atB (regionStage e c hnd t H W) p = false := by
    intro p
    unfold regionStage regionOf
    rw [atB_materializeB]
    split
    · rw [hkeep]
      simp
    · rfl
  intro p
  have hgen : generate_vbet_polygon e c hnd H W t =
      closing2 (regionStage e c hnd t H W) H W := rfl
  rw [hgen]
  unfold closing2
  exact erodeG_allFalse (erodeG_allFalse (dilateG_allFalse (dilateG_allFalse hreg))) p

/-- C4 amended witness: an all-zero run on a 1×12 grid. -/
theorem C4_no_overlap_all_zero_witness :
    atB (generate_vbet_polygon eZ cZ hZ 1 12 thresh_VBET_FULL) (0, 3) = false :=
  C4_no_overlap_all_zero eZ cZ hZ thresh_VBET_FULL 1 12
    (by intro p _; simp [cZ]) (0, 3)

/-- C7: the raw valley-bottom mask is 1 exactly where
(evidence + channel ≥ threshold) and (HAND + channel > 0) and 0 elsewhere;
the pipeline sieves it with the fixed pixel-count threshold 10 (under which
a sub-threshold raw region is removed), and after region selection applies
the binary closing with iteration count 2. -/
theorem C7_threshold_sieve_close (e : Pos → ℚ) (c : Pos → ℤ) (hnd : Pos → ℚ)
    (t : ℚ) (H W : ℕ) :
    (∀ p : Pos,
      (rawMask e c hnd t p = 1 ↔ (t ≤ e p + (c p : ℚ) ∧ 0 < hnd p + (c p : ℚ)))
      ∧ (rawMask e c hnd t p = 0 ∨ rawMask e c hnd t p = 1))
  ∧ sievedStage e c hnd t H W = sieveGrid (atZ (rawStage e c hnd t H W)) 10 H W
  ∧ (∀ p : Pos, atZ (rawStage e c hnd t H W) p = 1 →
      regionSizeAt (atZ (rawStage e c hnd t H W)) 10 H W p < 10 →
      atZ (sievedStage e c hnd t H W) p = 0)
  ∧ generate_vbet_polygon e c hnd H W t =
      closing2 (regionStage e c hnd t H W) H W := by
  refine ⟨?_, rfl, ?_, rfl⟩
  · intro p
    constructor
    · constructor
      · intro h
        constructor
        · by_contra h1
          simp [rawMask, h1] at h
        · by_contra h2
          simp [rawMask, h2] at h
      · rintro ⟨h1, h2⟩
        simp [rawMask, h1, h2]
    · by_cases h1 : t ≤ e p + (c p : ℚ) <;> by_cases h2 : 0 < hnd p + (c p : ℚ) <;>
        simp [rawMask, h1, h2]
  · intro p h1 hsz
    have hs : sievedStage e c hnd t H W =
        materializeZ (fun q =>
          if regionSizeAt (atZ (rawStage e c hnd t H W)) 10 H W q < 10 then
            1 - atZ (rawStage e c hnd t H W) q
          else atZ (rawStage e c hnd t H W) q) H W := rfl
    rw [hs, atZ_materializeZ]
    by_cases hb : inBoundsB H W p = true
    · rw [if_pos hb, if_pos hsz, h1]
      rfl
    · rw [if_neg hb]

unseal Rat.add Rat.mul Rat.inv in
/-- C7 witness: a 1×12 grid with a single above-threshold pixel; its raw
mask value is 1 and, its region being a single pixel, the sieve removes it. -/
theorem C7_threshold_sieve_close_witness :
    rawMask eS cS hS thresh_VBET_FULL (0, 0) = 1
  ∧ atZ (sievedStage eS cS hS thresh_VBET_FULL 1 12) (0, 0) = 0 :=
  ⟨((C7_threshold_sieve_close eS cS hS thresh_VBET_FULL 1 12).1 (0, 0)).1.mpr
      ⟨by decide, by decide⟩,
   (C7_threshold_sieve_close eS cS hS thresh_VBET_FULL 1 12).2.2.1 (0, 0)
      (by decide) (by decide)⟩

set_option maxRecDepth 100000

set_option maxHeartbeats 4000000

unseal Rat.add Rat.mul Rat.inv in
/-- C1: evaluation of the channel-overlap selection on a 1×30 raster with
two surviving 10-pixel regions, where only the second region (label 2)
overlaps the channel.  The distinct nonzero value of regions * chan is 2,
yet np.isin(regions, values.nonzero()) keeps label 1 (the component that
does not touch the channel) and removes label 2, because values.nonzero()
yields the positions of the nonzero entries of the sorted distinct-value
array rather than the values themselves. -/
theorem C1_channel_overlap_selection_bug :
    (valuesStage e1 c1 h1 thresh_VBET_FULL 1 30).filter (fun v => v ≠ 0) = [2]
  ∧ labelAtN (labelsStage e1 c1 h1 thresh_VBET_FULL 1 30) (0, 5) = 1
  ∧ labelAtN (labelsStage e1 c1 h1 thresh_VBET_FULL 1 30) (0, 25) = 2
  ∧ c1 (0, 25) = 1
  ∧ c1 (0, 5) = 0
  ∧ atB (regionStage e1 c1 h1 thresh_VBET_FULL 1 30) (0, 5) = true
  ∧ atB (regionStage e1 c1 h1 thresh_VBET_FULL 1 30) (0, 25) = false := by
  decide

unseal Rat.add Rat.mul Rat.inv in
/-- C4 counterexample: a 5×15 raster whose sieved mask has two 10-pixel
components, each overlapping the channel; both are kept by the selection and
survive the closing, so the final valley-bottom mask has more than one
8-connected component: the cells (2,2) and (2,12) are both set and (2,12)
is not in the 8-connected component of (2,2). -/
theorem C4_two_components_cex :
    twoComponentProbe (generate_vbet_polygon e4 c4 h4 5 15 thresh_VBET_FULL)
      5 15 (2, 2) (2, 12) = (true, true, false) := by
  decide

unseal Rat.add Rat.mul Rat.inv in
theorem e5_highThreshold_px :
    atB (generate_vbet_polygon e5 c5 h5 7 13 thresh_VBET_IA) (4, 2) = true := by
  decide

unseal Rat.add Rat.mul Rat.inv in
theorem e5_lowThreshold_px :
    atB (generate_vbet_polygon e5 c5 h5 7 13 thresh_VBET_FULL) (4, 2) = false := by
  decide

/-- C5 counterexample: on a 7×13 raster the pixel (4,2) belongs to the mask
produced with threshold 0.90 but not to the mask produced with threshold
0.68, so raising the threshold grows the resulting mask at that pixel.  (At
0.68 a bridge merges the two channel-bearing components into one, changing
the label numbering, and the index-for-value selection slip then keeps only
the channel-free component.) -/
theorem C5_threshold_monotonicity_violation :
    atB (generate_vbet_polygon e5 c5 h5 7 13 thresh_VBET_IA) (4, 2) = true
  ∧ atB (generate_vbet_polygon e5 c5 h5 7 13 thresh_VBET_FULL) (4, 2) = false :=
  ⟨e5_highThreshold_px, e5_lowThreshold_px⟩

end VBET
